import Mathlib

/-!
Verification of the asset-optimisation pipeline in `src/astro_opt.ts` against its
natural-language specification.  The script watches a directory tree, classifies
files by extension, transcodes them into a mirrored output tree, reports size
deltas and is supposed to clean up partial output on failure.  The definitions
below are a shallow embedding of the script: JS string operations become
functions on `List Char` / `String`, Node `path` helpers are modelled for the
POSIX separator used by the deployment, and the imperative body of `optimise`
becomes a trace of filesystem operations parameterised by oracles for the
behaviour of the external encoder calls.
-/

set_option autoImplicit false

/-! ### JS string primitives -/

/-- `String.prototype.split(sep)` for a one-character separator, on character
lists.  `splitOnChar c []` is `[[]]`, matching JS `''.split(c) = ['']`. -/
def splitOnChar (c : Char) : List Char → List (List Char)
  | [] => [[]]
  | x :: xs =>
    match splitOnChar c xs with
    | [] => [[]]
    | h :: t => if x = c then [] :: h :: t else (x :: h) :: t

/-- Inverse of `splitOnChar`: join chunks with a one-character separator. -/
def joinC (c : Char) : List (List Char) → List Char
  | [] => []
  | [a] => a
  | a :: b :: t => a ++ c :: joinC c (b :: t)

/-- `String.prototype.includes(pat)`: substring occurrence test. -/
def containsSub (pat : List Char) : List Char → Bool
  | [] => pat.isEmpty
  | x :: xs => pat.isPrefixOf (x :: xs) || containsSub pat xs

/-- `String.prototype.replace(pat, repl)` with a string pattern: replaces only
the first occurrence, returns the input unchanged when the pattern is absent. -/
def replaceFirst (pat repl : List Char) : List Char → List Char
  | [] => if pat.isEmpty then repl else []
  | x :: xs =>
    if pat.isPrefixOf (x :: xs) then repl ++ (x :: xs).drop pat.length
    else x :: replaceFirst pat repl xs

/-- JS `s.includes(pat)` lifted to `String`. -/
def jsIncludes (s pat : String) : Bool := containsSub pat.data s.data

/-- JS `s.replace(pat, repl)` (first occurrence only) lifted to `String`. -/
def jsReplaceFirst (s pat repl : String) : String :=
  ⟨replaceFirst pat.data repl.data s.data⟩

/-- JS `s.toLowerCase()` on the ASCII names the script handles. -/
def jsToLower (s : String) : String := ⟨s.data.map Char.toLower⟩

/-- JS `s.split('/')` as a list of `String`s. -/
def splitSlash (s : String) : List String := (splitOnChar '/' s.data).map String.mk

/-- Join path segments with `'/'`. -/
def joinSlash (l : List String) : String := ⟨joinC '/' (l.map String.data)⟩

/-- JS `s.endsWith(suf)` (used to model Node's suffix stripping). -/
def jsEndsWith (s suf : String) : Bool := suf.data.isSuffixOf s.data

/-! ### Node `path` helpers (POSIX separator)

The script runs with `path.sep = '/'` and from a fixed working directory; the
configured roots of the program are `path.resolve` results against it. -/

/-- `path.resolve('./')`: the process working directory, a fixed configuration
value of the run. -/
def cwd : String := "/work"

/-- `path.resolve('./public_dev')`: the configured watch root (line 15). -/
def watchDir : String := "/work/public_dev"

/-- `path.resolve('./opt_cache')`: the provisioned cache directory (line 16). -/
def cacheDir : String := "/work/opt_cache"

/-- Last path segment (Node `path.basename(p)` without suffix stripping). -/
def basenameRaw (p : String) : String := (splitSlash p).getLastD ""

/-- Node `path.extname(p)`: the final `.`-suffix of the last segment; a leading
dot alone (dotfile) yields the empty extension. -/
def extname (p : String) : String :=
  match splitOnChar '.' (basenameRaw p).data with
  | [] => ""
  | [_] => ""
  | [h, t] => if h.isEmpty then "" else ⟨'.' :: t⟩
  | parts => ⟨'.' :: parts.getLastD []⟩

/-- Node `path.basename(p, ext)` applied to a basename `b`: strips `ext` when
it is a proper, case-sensitively matching suffix of `b`. -/
def stripExt (b ext : String) : String :=
  if ext != "" && b != ext && jsEndsWith b ext then
    ⟨b.data.take (b.data.length - ext.data.length)⟩
  else b

/-- `p.substring(0, p.lastIndexOf('/'))`: everything before the final
separator, `""` when the path has no separator. -/
def dirname (p : String) : String := joinSlash (splitSlash p).dropLast

/-! ### Extension sets and the watch-subscription predicate (lines 10-26) -/

def imageExtensions : List String := [".png", ".jpg", ".gif"]

def audioExtensions : List String := [".mp3", ".m4a", ".wav", ".flac", ".opus", ".aac"]

def videoExtensions : List String := [".mp4", ".mov"]

def fontExtensions : List String := [".ttf", ".woff2"]

/-- The shared extension test of lines 23 and 33: a nonempty extension lying in
one of the four extension arrays (note: `.svg` is absent from all four). -/
def knownWatchedExt (ext : String) : Bool :=
  decide (0 < ext.length) &&
    (imageExtensions.contains ext || audioExtensions.contains ext ||
      videoExtensions.contains ext || fontExtensions.contains ext)

/-- The `ignored` predicate passed to `chokidar.watch` (lines 21-24): computes
the lowercased extension and returns `true` when it lies in a known set. -/
def watcherIgnored (filePath : String) : Bool :=
  knownWatchedExt (jsToLower (extname filePath))

/-- Chokidar's contract for the `ignored` option: a path for which the
predicate returns `true` is never watched, so events for it are never
delivered to the handlers; all other paths are delivered. -/
def watcherDelivers (filePath : String) : Bool := !watcherIgnored filePath

/-! ### The backfill pass (lines 29-45)

`fs.readdir` yields a listing; `files.forEach(async (f, index, array) => ...)`
starts one asynchronous callback per entry.  Inside the callback the matching
test of line 33 guards both the processing of the file and the
`if (index === array.length - 1) resolve()` step, and the watcher's
`add`/`change`/`unlink` handlers are attached only in the `.then` of the
promise that `resolve` completes. -/

/-- The matching test of line 33 applied to one listing entry. -/
def backfillMatch (f : String) : Bool := knownWatchedExt (jsToLower (extname f))

/-- Whether the backfill promise is ever resolved for a given listing:
`resolve()` sits inside the branch taken only when the entry at index
`array.length - 1` passes the extension test, so it runs exactly when the last
listing entry matches (and never for an empty listing). -/
def backfillResolves (files : List String) : Bool :=
  match files.getLast? with
  | none => false
  | some f => backfillMatch f

/-- The live handlers are attached in the `.then` continuation, hence exactly
when the backfill promise resolves. -/
def liveHandlersAttach (files : List String) : Bool := backfillResolves files

/-! ### Path mapping and format choice inside `optimise` (lines 61, 85) -/

/-- The lowercased extension that `handleFileChange` (line 48) passes to
`optimise`. -/
def optimiseExt (filePath : String) : String := jsToLower (extname filePath)

/-- Line 61: the extension-less mapped output path.  The directory part has its
first occurrence of `/public_dev` replaced by `/public` and is rejoined with
the basename stripped of the (lowercased) extension; `path.join` inserts the
separator. -/
def mapOutputPath (filePath ext : String) : String :=
  jsReplaceFirst (dirname filePath) "/public_dev" "/public" ++ "/" ++
    stripExt (basenameRaw filePath) ext

/-- Line 85: the raster-image target format.  The path is cut after
`path.resolve('./')` (the working directory), split on the separator, and the
count of separators decides: exactly `2` selects `png`, anything else `avif`. -/
def chooseFormat (filePath : String) : String :=
  if (splitSlash ⟨filePath.data.drop cwd.length⟩).length - 1 = 2 then "png" else "avif"

/-! ### The effect trace of `optimise` (lines 60-206)

Only three kinds of filesystem mutation occur: directory creation, file
deletion and file writes (by `sharp`, `svgo`+`writeFile`, `ffmpeg`,
`ttf2woff2`+`writeFile`, `copyFile`).  `applyOps` runs a trace against a set of
existing files; `mkdir` never changes the file set. -/

inductive FsOp where
  | mkdir (p : String)
  | unlink (p : String)
  | write (p : String)
deriving DecidableEq, Repr

/-- Execute a trace of filesystem operations over the set of files present.
A write replaces any file already at the path; `unlink` of a missing file is
the ignored ENOENT case. -/
def applyOps (fs : List String) : List FsOp → List String
  | [] => fs
  | FsOp.mkdir _ :: rest => applyOps fs rest
  | FsOp.unlink p :: rest => applyOps (fs.filter (fun q => q != p)) rest
  | FsOp.write p :: rest => applyOps (fs.filter (fun q => q != p) ++ [p]) rest

/-- Oracles for the behaviour of one job's external steps: whether the
category's encode step fails (rejects / throws), and whether a failing encoder
had already written (partial) output at its target before failing. -/
structure Oracles where
  fails : Bool
  partialWrite : Bool

/-- One strategist invocation writing to `target`: on success the target is
written; on failure at most a partial target exists and the `cleanup`
operations of the `catch` block that receives the error run afterwards. -/
def strategistOps (target : String) (cleanup : List FsOp) (o : Oracles) : List FsOp :=
  if o.fails then (if o.partialWrite then [FsOp.write target] else []) ++ cleanup
  else [FsOp.write target]

/-- Lines 64-66: unconditionally executed before any category branch —
`mkdir -p` of the mapped output directory with every error swallowed by
`.catch(() => \x7b\x7d)`, deletion of the extension-less mapped path with
ENOENT swallowed likewise, and re-provisioning of the cache directory. -/
def preOps (p : String) : List FsOp :=
  [FsOp.mkdir (dirname (mapOutputPath p (optimiseExt p))),
   FsOp.unlink (mapOutputPath p (optimiseExt p)),
   FsOp.mkdir cacheDir]

/-- The category dispatch of lines 79-205.  The image branch (81-121) wraps its
work in an inner `try`/`catch` that only logs, so an image failure never
reaches the outer `catch` and performs no deletion; the font branch (178-200)
swallows its errors in `.catch` handlers likewise.  The svg, audio and video
branches let the rejection reach the outer `catch` of line 202, which unlinks
`outputFilePath` — still the extension-less path for audio and video, since
only the image branch ever reassigns it (and image errors cannot reach here).
Every branch writes its target with the strategist-appended final extension. -/
def bodyOps (p : String) (o : Oracles) : List FsOp :=
  let ext := optimiseExt p
  let out0 := mapOutputPath p ext
  if imageExtensions.contains ext then
    strategistOps (out0 ++ "." ++ chooseFormat p) [] o
  else if ext == ".svg" then
    strategistOps (out0 ++ ".svg") [FsOp.unlink out0] o
  else if audioExtensions.contains ext then
    strategistOps (out0 ++ ".aac") [FsOp.unlink out0] o
  else if videoExtensions.contains ext then
    strategistOps (out0 ++ ".mp4") [FsOp.unlink out0] o
  else if fontExtensions.contains ext then
    strategistOps (out0 ++ ".woff2") [] o
  else []

/-- The full effect trace of one `optimise` call. -/
def optimiseOps (p : String) (o : Oracles) : List FsOp :=
  preOps p ++ bodyOps p o

/-- Whether some category branch of `optimise` (lines 81-201) handles the
extension: the four watcher sets plus the separately-tested `.svg`. -/
def knownHandledExt (ext : String) : Bool :=
  imageExtensions.contains ext || ext == ".svg" || audioExtensions.contains ext ||
    videoExtensions.contains ext || fontExtensions.contains ext

/-! ### The size reporter `getDif` (lines 71-77) -/

/-- The rendered report: either the `[DIF ERROR]` marker or a percentage with
its directional word (`"reduced"`, `"gained"`, or `""` for the neutral case). -/
inductive DifReport where
  | err : DifReport
  | delta : ℚ → String → DifReport
deriving DecidableEq, Repr

/-- JS truthiness of a possibly-undefined numeric size: `undefined` and `0`
are both falsy. -/
def jsTruthyNum : Option Nat → Bool
  | none => false
  | some n => n != 0

/-- Lines 71-77: `if (beforeSize && afterSize)` renders
`((before - after) / before) * 100` with a word chosen by the sign, else the
`[DIF ERROR]` marker. -/
def getDif (beforeSize afterSize : Option Nat) : DifReport :=
  if jsTruthyNum beforeSize && jsTruthyNum afterSize then
    let b : ℚ := (beforeSize.getD 0 : Nat)
    let a : ℚ := (afterSize.getD 0 : Nat)
    let dif : ℚ := (b - a) / b * 100
    DifReport.delta dif (if 0 < dif then "reduced" else if dif < 0 then "gained" else "")
  else DifReport.err

/-! ### The alpha repack (lines 101-110) -/

/-- A decoded raster image as `sharp`'s raw pipeline delivers it for an image
with an alpha channel: `data` is the interleaved RGBA byte buffer for
`width × height` pixels. -/
structure RawImage where
  width : Nat
  height : Nat
  data : List Nat

/-- Line 102-103: the destructuring
`const { data: colorData, info: colorInfo, data: alphaData } = ...` reads the
single `data` property twice, so `colorData` and `alphaData` are the same full
raw buffer, and `Buffer.concat([colorData, alphaData])` is that buffer
concatenated with itself. -/
def combinedBuffer (raw : RawImage) : List Nat := raw.data ++ raw.data

/-- Modelled from the spec: the repack the specification describes — a raw
interleaved RGBA buffer for a `width × height` image, which holds exactly
`width * height * 4` samples (the declared geometry handed to `sharp` on
lines 104-109 with `channels: 4`). -/
def rgbaSampleCount (raw : RawImage) : Nat := raw.width * raw.height * 4

/-! ### Video encoder selection (lines 154-169) -/

inductive VideoEncoder where
  | nvenc : VideoEncoder
  | qsv : VideoEncoder
  | amf : VideoEncoder
  | libaom : VideoEncoder
deriving DecidableEq, Repr

/-- Lines 157-169: probe result string from `ffmpeg -encoders`, tested by
substring containment in fixed priority order. -/
def selectVideoEncoder (encoders : String) : VideoEncoder :=
  if jsIncludes encoders "av1_nvenc" then VideoEncoder.nvenc
  else if jsIncludes encoders "av1_qsv" then VideoEncoder.qsv
  else if jsIncludes encoders "av1_amf" then VideoEncoder.amf
  else VideoEncoder.libaom

/-- The fixed command template of each branch (lines 159-168), with its own
quality/speed parameter set. -/
def videoCommand (filePath outputFilePath : String) : VideoEncoder → String
  | VideoEncoder.nvenc =>
      "ffmpeg -i \"" ++ filePath ++ "\" -c:v av1_nvenc -preset p7 -cq 30 -b:v 0 \"" ++
        outputFilePath ++ "\".mp4 -y"
  | VideoEncoder.qsv =>
      "ffmpeg -init_hw_device vaapi=va:/dev/dri/renderD128 -i \"" ++ filePath ++
        "\" -c:v av1_qsv -preset veryslow -q:v 30 -b:v 0 \"" ++ outputFilePath ++ "\".mp4 -y"
  | VideoEncoder.amf =>
      "ffmpeg -i \"" ++ filePath ++ "\" -c:v av1_amf -usage quality -rc vbr_quality -q:v 20 -b:v 0 \"" ++
        outputFilePath ++ "\".mp4 -y"
  | VideoEncoder.libaom =>
      "ffmpeg -i \"" ++ filePath ++ "\" -c:v libaom-av1 -crf 30 -b:v 0 -preset slow \"" ++
        outputFilePath ++ "\".mp4 -y"

/-! ### Helper lemmas: strings and splitting -/

theorem str_data_eq {a b : String} (h : a.data = b.data) : a = b := by
  cases a
  cases b
  exact congrArg String.mk h

@[simp]
theorem str_data_append (a b : String) : (a ++ b).data = a.data ++ b.data := rfl

@[simp]
theorem str_mk_data (s : String) : String.mk s.data = s := rfl

@[simp]
theorem str_mk_nil : String.mk [] = "" := rfl

theorem str_append_assoc (a b c : String) : a ++ b ++ c = a ++ (b ++ c) :=
  str_data_eq (by simp)

theorem str_append_ne_of_ne_nil (a s : String) (hs : s.data ≠ []) : a ++ s ≠ a := by
  intro h
  have hlen : (a ++ s).data.length = a.data.length := by rw [h]
  rw [str_data_append, List.length_append] at hlen
  exact hs (List.eq_nil_of_length_eq_zero (by omega))

theorem splitOnChar_ne_nil (c : Char) (l : List Char) : splitOnChar c l ≠ [] := by
  cases l with
  | nil => simp [splitOnChar]
  | cons x xs =>
    simp only [splitOnChar]
    cases h : splitOnChar c xs with
    | nil => simp
    | cons a t => by_cases hx : x = c <;> simp [hx]

theorem splitOnChar_cons_sep (c : Char) (b : List Char) :
    splitOnChar c (c :: b) = [] :: splitOnChar c b := by
  simp only [splitOnChar]
  cases h : splitOnChar c b with
  | nil => exact absurd h (splitOnChar_ne_nil c b)
  | cons a t => simp

theorem splitOnChar_append_sep (c : Char) (a b : List Char) (ha : c ∉ a) :
    splitOnChar c (a ++ c :: b) = a :: splitOnChar c b := by
  induction a with
  | nil => simpa using splitOnChar_cons_sep c b
  | cons x xs ih =>
    have hx : x ≠ c := fun h => ha (h ▸ List.mem_cons_self x xs)
    have hxs : c ∉ xs := fun h => ha (List.mem_cons_of_mem x h)
    rw [List.cons_append]
    simp only [splitOnChar, ih hxs]
    simp [hx]

theorem splitOnChar_of_not_mem (c : Char) (a : List Char) (ha : c ∉ a) :
    splitOnChar c a = [a] := by
  induction a with
  | nil => rfl
  | cons x xs ih =>
    have hx : x ≠ c := fun h => ha (h ▸ List.mem_cons_self x xs)
    have hxs : c ∉ xs := fun h => ha (List.mem_cons_of_mem x h)
    simp only [splitOnChar, ih hxs]
    simp [hx]

theorem splitOnChar_joinC (c : Char) (l : List (List Char)) (hl : ∀ s ∈ l, c ∉ s)
    (hne : l ≠ []) : splitOnChar c (joinC c l) = l := by
  induction l with
  | nil => cases hne rfl
  | cons a t ih =>
    cases t with
    | nil => simpa [joinC] using splitOnChar_of_not_mem c a (hl a (by simp))
    | cons b t2 =>
      rw [joinC, splitOnChar_append_sep c a _ (hl a (by simp))]
      rw [ih (fun s hs => hl s (by simp [hs])) (by simp)]

theorem joinC_append_single (c : Char) (l : List (List Char)) (a : List Char) (hl : l ≠ []) :
    joinC c (l ++ [a]) = joinC c l ++ c :: a := by
  induction l with
  | nil => cases hl rfl
  | cons x t ih =>
    cases t with
    | nil => rfl
    | cons y t2 =>
      have h1 : joinC c ((x :: y :: t2) ++ [a]) = x ++ c :: joinC c ((y :: t2) ++ [a]) := rfl
      rw [h1, ih (by simp)]
      simp [joinC, List.append_assoc]

/-! ### Helper lemmas: prefix replacement -/

theorem isPrefixOf_append (l t : List Char) : l.isPrefixOf (l ++ t) = true := by
  induction l with
  | nil => simp [List.isPrefixOf]
  | cons x xs ih => simp [List.isPrefixOf, ih]

theorem replaceFirst_cons_of_ne (pat repl : List Char) (x : Char) (xs : List Char)
    (h : pat.isPrefixOf (x :: xs) = false) :
    replaceFirst pat repl (x :: xs) = x :: replaceFirst pat repl xs := by
  simp only [replaceFirst]
  rw [h]
  simp

theorem replaceFirst_at_pattern (pat repl t : List Char) (hne : pat ≠ []) :
    replaceFirst pat repl (pat ++ t) = repl ++ t := by
  cases pat with
  | nil => cases hne rfl
  | cons p ps =>
    have h1 : ((p :: ps) ++ t) = p :: (ps ++ t) := rfl
    rw [h1]
    simp only [replaceFirst]
    rw [show (p :: (ps ++ t)) = ((p :: ps) ++ t) from rfl, isPrefixOf_append]
    simp only [if_true]
    rw [show ((p :: ps) ++ t).drop (p :: ps).length = t from List.drop_left (p :: ps) t]

theorem pubdev_not_prefix_w (rest : List Char) :
    "/public_dev".data.isPrefixOf ('/' :: 'w' :: rest) = false := by
  show (['/','p','u','b','l','i','c','_','d','e','v'] : List Char).isPrefixOf ('/' :: 'w' :: rest)
      = false
  simp [List.isPrefixOf, show (('p' : Char) == 'w') = false from by decide]

theorem pubdev_not_prefix_of_head (x : Char) (rest : List Char) (hx : (('/' : Char) == x) = false) :
    "/public_dev".data.isPrefixOf (x :: rest) = false := by
  show (['/','p','u','b','l','i','c','_','d','e','v'] : List Char).isPrefixOf (x :: rest) = false
  simp [List.isPrefixOf, hx]

theorem replaceFirst_under_work (t : List Char) :
    replaceFirst "/public_dev".data "/public".data
        (['/', 'w', 'o', 'r', 'k'] ++ "/public_dev".data ++ t)
      = ['/', 'w', 'o', 'r', 'k'] ++ "/public".data ++ t := by
  have e1 : (['/', 'w', 'o', 'r', 'k'] ++ "/public_dev".data ++ t)
      = '/' :: 'w' :: 'o' :: 'r' :: 'k' :: ("/public_dev".data ++ t) := by
    simp [List.append_assoc]
  rw [e1]
  rw [replaceFirst_cons_of_ne _ _ _ _ (pubdev_not_prefix_w _)]
  rw [replaceFirst_cons_of_ne _ _ _ _ (pubdev_not_prefix_of_head 'w' _ (by decide))]
  rw [replaceFirst_cons_of_ne _ _ _ _ (pubdev_not_prefix_of_head 'o' _ (by decide))]
  rw [replaceFirst_cons_of_ne _ _ _ _ (pubdev_not_prefix_of_head 'r' _ (by decide))]
  rw [replaceFirst_cons_of_ne _ _ _ _ (pubdev_not_prefix_of_head 'k' _ (by decide))]
  rw [replaceFirst_at_pattern _ _ _ (by decide)]
  simp [List.append_assoc]

/-! ### Helper lemmas: joining path segments -/

theorem joinSlash_append_single (l : List String) (a : String) (hl : l ≠ []) :
    joinSlash (l ++ [a]) = joinSlash l ++ "/" ++ a := by
  apply str_data_eq
  show joinC '/' ((l ++ [a]).map String.data) = ((joinSlash l ++ "/") ++ a).data
  rw [List.map_append]
  rw [show List.map String.data [a] = [a.data] from rfl]
  rw [joinC_append_single _ _ _ (by simpa using hl)]
  simp [joinSlash, List.append_assoc]

theorem joinSlash_cons (a : String) (l : List String) (hl : l ≠ []) :
    joinSlash (a :: l) = a ++ "/" ++ joinSlash l := by
  cases l with
  | nil => cases hl rfl
  | cons b t =>
    apply str_data_eq
    show joinC '/' (a.data :: (b :: t).map String.data) = ((a ++ "/") ++ joinSlash (b :: t)).data
    have h1 : joinC '/' (a.data :: (b :: t).map String.data)
        = a.data ++ '/' :: joinC '/' ((b :: t).map String.data) := rfl
    rw [h1]
    simp [joinSlash, List.append_assoc]

/-! ### Helper lemmas: splitting concrete path prefixes -/

theorem map_mk_data (l : List String) : (l.map String.data).map String.mk = l := by
  induction l with
  | nil => rfl
  | cons a t ih => simp [ih]

theorem splitOnChar_pubdev_head (X : List Char) :
    splitOnChar '/' ('/' :: ("public_dev".data ++ '/' :: X))
      = [] :: "public_dev".data :: splitOnChar '/' X := by
  rw [splitOnChar_cons_sep, splitOnChar_append_sep '/' _ _ (by decide)]

theorem splitOnChar_root_head (X : List Char) :
    splitOnChar '/' ('/' :: ("work".data ++ '/' :: ("public_dev".data ++ '/' :: X)))
      = [] :: "work".data :: "public_dev".data :: splitOnChar '/' X := by
  rw [splitOnChar_cons_sep, splitOnChar_append_sep '/' _ _ (by decide),
    splitOnChar_append_sep '/' _ _ (by decide)]

theorem splitOnChar_join_segs (segs : List String) (h : ∀ s ∈ segs, '/' ∉ s.data)
    (hne : segs ≠ []) :
    splitOnChar '/' (joinC '/' (segs.map String.data)) = segs.map String.data := by
  apply splitOnChar_joinC
  · intro s hs
    rcases List.mem_map.mp hs with ⟨x, hx, rfl⟩
    exact h x hx
  · simpa using hne

/-! ### Helper lemmas: the trace interpreter -/

theorem applyOps_append (fs : List String) (l1 l2 : List FsOp) :
    applyOps fs (l1 ++ l2) = applyOps (applyOps fs l1) l2 := by
  induction l1 generalizing fs with
  | nil => rfl
  | cons op rest ih => cases op <;> simp [applyOps, ih]

theorem not_mem_filter_ne (q : String) (fs : List String) :
    q ∉ fs.filter (fun x => x != q) := by
  intro h
  have h2 := List.mem_filter.mp h
  simp at h2

theorem not_mem_applyOps (q : String) (ops : List FsOp) (fs : List String)
    (hfs : q ∉ fs) (hw : ∀ r, FsOp.write r ∈ ops → r ≠ q) : q ∉ applyOps fs ops := by
  induction ops generalizing fs with
  | nil => exact hfs
  | cons op rest ih =>
    cases op with
    | mkdir p =>
      exact ih fs hfs (fun r hr => hw r (by simp [hr]))
    | unlink p =>
      refine ih _ ?_ (fun r hr => hw r (by simp [hr]))
      intro hmem
      exact hfs (List.mem_of_mem_filter hmem)
    | write p =>
      refine ih _ ?_ (fun r hr => hw r (by simp [hr]))
      intro hmem
      rcases List.mem_append.mp hmem with h | h
      · exact hfs (List.mem_of_mem_filter h)
      · simp at h
        exact hw p (by simp) h.symm

theorem strategistOps_write (target : String) (cl : List FsOp) (o : Oracles)
    (hcl : ∀ r, FsOp.write r ∉ cl) (r : String)
    (hr : FsOp.write r ∈ strategistOps target cl o) : r = target := by
  rcases o with ⟨fails, pw⟩
  cases fails <;> cases pw <;> simp [strategistOps] at hr
  · exact hr
  · exact hr
  · exact absurd hr (hcl r)
  · rcases hr with h | h
    · exact h
    · exact absurd h (hcl r)

theorem bodyOps_write (p : String) (o : Oracles) (r : String)
    (hr : FsOp.write r ∈ bodyOps p o) :
    ∃ s : String, s.data ≠ [] ∧ r = mapOutputPath p (optimiseExt p) ++ s := by
  simp only [bodyOps] at hr
  split at hr
  · refine ⟨"." ++ chooseFormat p, ?_, ?_⟩
    · simp
    · rw [strategistOps_write _ _ _ (by simp) r hr, str_append_assoc]
  · split at hr
    · exact ⟨".svg", by decide, strategistOps_write _ _ _ (by simp) r hr⟩
    · split at hr
      · exact ⟨".aac", by decide, strategistOps_write _ _ _ (by simp) r hr⟩
      · split at hr
        · exact ⟨".mp4", by decide, strategistOps_write _ _ _ (by simp) r hr⟩
        · split at hr
          · exact ⟨".woff2", by decide, strategistOps_write _ _ _ (by simp) r hr⟩
          · simp at hr

/-! ### Helper lemmas: the mapped directory of inputs under the watch root -/

theorem replace_pubdev_dir (mid : List String) :
    jsReplaceFirst (joinSlash ("" :: "work" :: "public_dev" :: mid)) "/public_dev" "/public"
      = joinSlash ("" :: "work" :: "public" :: mid) := by
  cases mid with
  | nil => decide
  | cons m ms =>
    apply str_data_eq
    show replaceFirst "/public_dev".data "/public".data
        (joinSlash ("" :: "work" :: "public_dev" :: m :: ms)).data
      = (joinSlash ("" :: "work" :: "public" :: m :: ms)).data
    have h1 : (joinSlash ("" :: "work" :: "public_dev" :: m :: ms)).data
        = ['/', 'w', 'o', 'r', 'k'] ++ "/public_dev".data ++
            ('/' :: joinC '/' ((m :: ms).map String.data)) := rfl
    have h2 : (joinSlash ("" :: "work" :: "public" :: m :: ms)).data
        = ['/', 'w', 'o', 'r', 'k'] ++ "/public".data ++
            ('/' :: joinC '/' ((m :: ms).map String.data)) := rfl
    rw [h1, h2, replaceFirst_under_work]

theorem splitSlash_under_root (mid : List String) (base : String)
    (hsegs : ∀ s ∈ mid ++ [base], '/' ∉ s.data) :
    splitSlash ("/work/public_dev/" ++ joinSlash (mid ++ [base]))
      = "" :: "work" :: "public_dev" :: (mid ++ [base]) := by
  show (splitOnChar '/' ("/work/public_dev/" ++ joinSlash (mid ++ [base])).data).map String.mk = _
  have h1 : ("/work/public_dev/" ++ joinSlash (mid ++ [base])).data
      = '/' :: ("work".data ++ '/' :: ("public_dev".data ++ '/' ::
          joinC '/' ((mid ++ [base]).map String.data))) := rfl
  rw [h1, splitOnChar_root_head, splitOnChar_join_segs _ hsegs (by simp)]
  simp only [List.map_cons, str_mk_data, str_mk_nil]
  rw [map_mk_data]

theorem dirname_under_root (mid : List String) (base : String)
    (hsegs : ∀ s ∈ mid ++ [base], '/' ∉ s.data) :
    dirname ("/work/public_dev/" ++ joinSlash (mid ++ [base]))
      = joinSlash ("" :: "work" :: "public_dev" :: mid) := by
  unfold dirname
  rw [splitSlash_under_root mid base hsegs]
  have h : ("" :: "work" :: "public_dev" :: (mid ++ [base]))
      = ("" :: "work" :: "public_dev" :: mid) ++ [base] := by simp
  rw [h, List.dropLast_concat]

theorem basenameRaw_under_root (mid : List String) (base : String)
    (hsegs : ∀ s ∈ mid ++ [base], '/' ∉ s.data) :
    basenameRaw ("/work/public_dev/" ++ joinSlash (mid ++ [base])) = base := by
  unfold basenameRaw
  rw [splitSlash_under_root mid base hsegs]
  have h : ("" :: "work" :: "public_dev" :: (mid ++ [base]))
      = ("" :: "work" :: "public_dev" :: mid) ++ [base] := by simp
  rw [h, List.getLastD_concat]

/-! ### Claim C9 -/

/-- C9 (counterexample): the claim that the mapped output path never contains
the input's original final extension fails.  For the input
`/work/public_dev/A.PNG` the lowercased extension `.png` handed to the
basename-stripping step does not match the actual suffix `.PNG`
case-sensitively, so nothing is stripped: the mapped output path is
`/work/public/A.PNG`, which contains the original final extension `.PNG`. -/
theorem c9_uppercase_extension_kept :
    mapOutputPath "/work/public_dev/A.PNG" (optimiseExt "/work/public_dev/A.PNG")
        = "/work/public/A.PNG"
      ∧ jsIncludes (mapOutputPath "/work/public_dev/A.PNG"
          (optimiseExt "/work/public_dev/A.PNG")) (extname "/work/public_dev/A.PNG") = true := by
  decide

/-- C9 (amended): for every input under the watch root, the mapped output path
replaces the input-root prefix `/work/public_dev` by the output-root prefix
`/work/public` and preserves every intermediate directory segment in order;
the final segment is the input's basename with the lowercased extension
stripped only when it matches the basename's actual suffix case-sensitively
(`stripExt`), so an input whose extension is already lowercase loses it, while
an input with an upper-case extension keeps it. -/
theorem c9_map_output_path (mid : List String) (base ext : String)
    (hmid : ∀ s ∈ mid, '/' ∉ s.data) (hbase : '/' ∉ base.data) :
    mapOutputPath ("/work/public_dev/" ++ joinSlash (mid ++ [base])) ext
      = "/work/public/" ++ joinSlash (mid ++ [stripExt base ext]) := by
  have hsegs : ∀ s ∈ mid ++ [base], '/' ∉ s.data := by
    intro s hs
    rcases List.mem_append.mp hs with h | h
    · exact hmid s h
    · rw [List.mem_singleton.mp h]
      exact hbase
  unfold mapOutputPath
  rw [dirname_under_root mid base hsegs, basenameRaw_under_root mid base hsegs,
    replace_pubdev_dir]
  cases mid with
  | nil =>
    apply str_data_eq
    rfl
  | cons m ms =>
    rw [show ((m :: ms) ++ [stripExt base ext]) = m :: (ms ++ [stripExt base ext]) from rfl]
    rw [show (m :: (ms ++ [stripExt base ext])) = (m :: ms) ++ [stripExt base ext] from rfl]
    rw [joinSlash_append_single (m :: ms) _ (by simp)]
    rw [joinSlash_cons "" _ (by simp), joinSlash_cons "work" _ (by simp),
      joinSlash_cons "public" _ (by simp)]
    apply str_data_eq
    simp [List.append_assoc]

/-- C9 (witness): a concrete instance of the amended mapping theorem — the
input `/work/public_dev/a/icon.png` maps to `/work/public/a/icon`. -/
theorem c9_map_output_path_witness :
    mapOutputPath ("/work/public_dev/" ++ joinSlash (["a"] ++ ["icon.png"])) ".png"
      = "/work/public/" ++ joinSlash (["a"] ++ [stripExt "icon.png" ".png"]) :=
  c9_map_output_path ["a"] "icon.png" ".png" (by decide) (by decide)

/-! ### Claim C3 -/

/-- C3 (counterexample): the claim that a raster image exactly two segments
below the watch root (such as `root/a/icon.png`) takes the lossless `png` path
fails: for `/work/public_dev/a/icon.png` the script's separator count over the
path relative to the working directory is `3`, not `2`, so it selects the
lossy `avif` format. -/
theorem c3_depth2_is_lossy :
    chooseFormat "/work/public_dev/a/icon.png" = "avif"
      ∧ chooseFormat "/work/public_dev/a/icon.png" ≠ "png" := by
  decide

/-- C3 (amended): the lossless `png` format is selected exactly for inputs
lying directly in the watch root (one segment below `/work/public_dev`, i.e.
two separators below the working directory); any deeper input takes the lossy
`avif` path. -/
theorem c3_format_by_depth (segs : List String) (h : ∀ s ∈ segs, '/' ∉ s.data)
    (hne : segs ≠ []) :
    chooseFormat ("/work/public_dev/" ++ joinSlash segs)
      = if segs.length = 1 then "png" else "avif" := by
  have h1 : ("/work/public_dev/" ++ joinSlash segs).data
      = "/work/public_dev/".data ++ joinC '/' (segs.map String.data) := rfl
  unfold chooseFormat
  rw [h1, show cwd.length = 5 from rfl]
  have h2 : ("/work/public_dev/".data ++ joinC '/' (segs.map String.data)).drop 5
      = '/' :: ("public_dev".data ++ '/' :: joinC '/' (segs.map String.data)) := by
    rw [List.drop_append_of_le_length (by decide)]
    rfl
  rw [h2]
  have h3 : splitSlash ⟨'/' :: ("public_dev".data ++ '/' :: joinC '/' (segs.map String.data))⟩
      = "" :: "public_dev" :: segs := by
    show (splitOnChar '/' ('/' :: ("public_dev".data ++ '/' ::
        joinC '/' (segs.map String.data)))).map String.mk = _
    rw [splitOnChar_pubdev_head, splitOnChar_join_segs segs h hne]
    simp only [List.map_cons, str_mk_data, str_mk_nil]
    rw [map_mk_data]
  rw [h3]
  simp only [List.length_cons]
  by_cases hl : segs.length = 1
  · rw [if_pos (by omega), if_pos hl]
  · rw [if_neg (by omega), if_neg hl]

/-- C3 (witness): a concrete instance of the amended theorem — the input
`/work/public_dev/icon.png`, directly in the watch root, takes the lossless
`png` path. -/
theorem c3_format_by_depth_witness :
    chooseFormat ("/work/public_dev/" ++ joinSlash ["icon.png"])
      = if [("icon.png" : String)].length = 1 then "png" else "avif" :=
  c3_format_by_depth ["icon.png"] (by decide) (by decide)

/-! ### Claim C1 -/

/-- C1: the claim that every job-level failure deletes any partial output at
the mapped output path (including the strategist-appended final extension) is
violated.  For the audio job `/work/public_dev/a/song.mp3` whose `ffmpeg`
invocation fails after partially writing `/work/public/a/song.aac`, the outer
`catch` unlinks only the extension-less `/work/public/a/song`, so the partial
`.aac` file is exactly what remains after the job returns. -/
theorem c1_failed_job_leaves_partial_output :
    applyOps [] (optimiseOps "/work/public_dev/a/song.mp3" ⟨true, true⟩)
      = ["/work/public/a/song.aac"] := by
  decide

/-! ### Claim C2 -/

/-- C2: the watch-subscription filter is inverted.  The `ignored` predicate
returns `true` exactly for paths whose lowercased extension lies in a known
category set, so `photo.png` is ignored and never delivered to the change
handler, while non-matching churn such as `notes.txt` is delivered — the
opposite of the claim in both directions. -/
theorem c2_watch_filter_inverted :
    watcherDelivers "/work/public_dev/photo.png" = false
      ∧ watcherIgnored "/work/public_dev/photo.png" = true
      ∧ watcherDelivers "/work/public_dev/notes.txt" = true := by
  decide

/-! ### Claim C4 -/

/-- C4: the alpha repack is broken.  The destructuring on line 102 reads the
`data` property twice, so `colorData` and `alphaData` alias the same full raw
RGBA buffer and the combined buffer is the raw data concatenated with itself:
for a 1×1 RGBA image with raw bytes `[10, 20, 30, 40]` it is the 8-byte
buffer below, not a `width * height * 4`-sample RGBA buffer of the declared
geometry (`channels: 4`, line 108), and not color planes interleaved with the
alpha channel. -/
theorem c4_alpha_repack_duplicates_buffer :
    combinedBuffer ⟨1, 1, [10, 20, 30, 40]⟩ = [10, 20, 30, 40, 10, 20, 30, 40]
      ∧ (combinedBuffer ⟨1, 1, [10, 20, 30, 40]⟩).length ≠ rgbaSampleCount ⟨1, 1, [10, 20, 30, 40]⟩ := by
  decide

/-! ### Claim C5 -/

/-- C5: the backfill-to-live transition can never happen for listings whose
last entry has a non-matching extension.  For the listing
`["a.png", "b.txt"]` the matching file `a.png` is processed, but `resolve()`
sits inside the extension-matching branch and index `1` never enters it, so
the promise never resolves and the live `add`/`change`/`unlink` handlers are
never attached. -/
theorem c5_backfill_never_resolves :
    liveHandlersAttach ["a.png", "b.txt"] = false
      ∧ backfillMatch "a.png" = true := by
  decide

/-! ### Claim C7 -/

/-- C7 (counterexample): the pre-write removal does not target the exact final
target path.  Start with a stale artifact at the final target
`/work/public/a/photo.avif` and run the image job for
`/work/public_dev/a/photo.png` with an encode failure before any write: the
trace unlinks only the extension-less `/work/public/a/photo`, and the stale
final-path artifact survives untouched. -/
theorem c7_stale_final_artifact_survives :
    applyOps ["/work/public/a/photo.avif"]
        (optimiseOps "/work/public_dev/a/photo.png" ⟨true, false⟩)
        = ["/work/public/a/photo.avif"]
      ∧ optimiseOps "/work/public_dev/a/photo.png" ⟨true, false⟩
        = [FsOp.mkdir "/work/public/a", FsOp.unlink "/work/public/a/photo",
           FsOp.mkdir "/work/opt_cache"] := by
  decide

/-- C7 (amended): before any write, every job removes any stale file at the
extension-less mapped output path (ignoring a does-not-exist failure), and no
later operation of the job ever writes that exact path — so after any job, for
any starting file set and any oracle behaviour, no file exists at the
extension-less mapped output path; the final-extension target is replaced
only because every writer overwrites its own target. -/
theorem c7_extensionless_path_cleared (p : String) (o : Oracles) (fs : List String) :
    mapOutputPath p (optimiseExt p) ∉ applyOps fs (optimiseOps p o) := by
  unfold optimiseOps
  rw [applyOps_append]
  apply not_mem_applyOps
  · have h : applyOps fs (preOps p)
        = fs.filter (fun q => q != mapOutputPath p (optimiseExt p)) := rfl
    rw [h]
    exact not_mem_filter_ne _ _
  · intro r hr
    rcases bodyOps_write p o r hr with ⟨s, hs, rfl⟩
    exact str_append_ne_of_ne_nil _ _ hs

/-! ### Claim C8 -/

/-- C8: for every encoder-listing string returned by `ffmpeg -encoders`, the
video strategist picks by the fixed priority NVIDIA (`av1_nvenc`) > Intel
(`av1_qsv`) > AMD (`av1_amf`) > software (`libaom-av1`), choosing the software
fallback exactly when none of the three hardware encoder names occurs in the
listing; each branch issues its own fixed command template (`videoCommand`). -/
theorem c8_video_encoder_priority (s : String) :
    (selectVideoEncoder s = VideoEncoder.nvenc ↔ jsIncludes s "av1_nvenc" = true)
      ∧ (selectVideoEncoder s = VideoEncoder.qsv ↔
          (jsIncludes s "av1_nvenc" = false ∧ jsIncludes s "av1_qsv" = true))
      ∧ (selectVideoEncoder s = VideoEncoder.amf ↔
          (jsIncludes s "av1_nvenc" = false ∧ jsIncludes s "av1_qsv" = false ∧
            jsIncludes s "av1_amf" = true))
      ∧ (selectVideoEncoder s = VideoEncoder.libaom ↔
          (jsIncludes s "av1_nvenc" = false ∧ jsIncludes s "av1_qsv" = false ∧
            jsIncludes s "av1_amf" = false)) := by
  unfold selectVideoEncoder
  cases h1 : jsIncludes s "av1_nvenc" <;> cases h2 : jsIncludes s "av1_qsv" <;>
    cases h3 : jsIncludes s "av1_amf" <;> simp [h1, h2, h3]

/-! ### Claim C6 -/

/-- C6 (counterexample): the claim that any pair of known sizes (including
zero) renders as a signed percentage fails.  With both sizes known,
`before = 100` and `after = 0`, JS truthiness treats the zero as falsy and the
report renders the `[DIF ERROR]` marker instead of the `100% reduced` delta
the claim requires. -/
theorem c6_zero_size_reports_error :
    getDif (some 100) (some 0) = DifReport.err
      ∧ getDif (some 100) (some 0)
        ≠ DifReport.delta ((((100 : Nat) : ℚ) - ((0 : Nat) : ℚ)) / ((100 : Nat) : ℚ) * 100)
            "reduced" := by
  constructor
  · rfl
  · intro h
    exact absurd h (by simp [getDif, jsTruthyNum])

/-- C6 (amended): when both sizes are known and nonzero the report renders the
exact signed percentage `(before - after) / before * 100` with the word
`reduced` when the size shrank, `gained` when it grew, and the neutral empty
word when unchanged; the `[DIF ERROR]` marker appears when either size lookup
failed — and also when a known size is exactly zero (JS truthiness), so a
missing size is never rendered as a zero delta but a zero size is conflated
with a failed lookup. -/
theorem c6_report_nonzero_sizes (b a : Nat) (hb : b ≠ 0) (ha : a ≠ 0) :
    (getDif (some b) (some a)
        = DifReport.delta ((((b : Nat) : ℚ) - ((a : Nat) : ℚ)) / ((b : Nat) : ℚ) * 100)
            (if a < b then "reduced" else if b < a then "gained" else ""))
      ∧ getDif none (some a) = DifReport.err
      ∧ getDif (some b) none = DifReport.err
      ∧ getDif (some b) (some 0) = DifReport.err := by
  refine ⟨?_, rfl, by simp [getDif, jsTruthyNum], by simp [getDif, jsTruthyNum]⟩
  have hbQ : (0 : ℚ) < ((b : Nat) : ℚ) := by exact_mod_cast Nat.pos_of_ne_zero hb
  simp only [getDif, jsTruthyNum, Option.getD_some]
  rw [if_pos (by simp [hb, ha])]
  congr 1
  rcases lt_trichotomy a b with h | h | h
  · have hd : 0 < (((b : Nat) : ℚ) - ((a : Nat) : ℚ)) / ((b : Nat) : ℚ) * 100 := by
      apply mul_pos
      · exact div_pos (sub_pos.mpr (by exact_mod_cast h)) hbQ
      · norm_num
    rw [if_pos hd, if_pos h]
  · subst h
    simp
  · have hd : (((b : Nat) : ℚ) - ((a : Nat) : ℚ)) / ((b : Nat) : ℚ) * 100 < 0 := by
      apply mul_neg_of_neg_of_pos
      · exact div_neg_of_neg_of_pos (sub_neg.mpr (by exact_mod_cast h)) hbQ
      · norm_num
    rw [if_neg (by exact not_lt.mpr hd.le), if_pos hd, if_neg (by omega), if_pos h]

/-- C6 (witness): a concrete instance of the amended reporter theorem at
`before = 200`, `after = 100`. -/
theorem c6_report_nonzero_sizes_witness :
    (getDif (some 200) (some 100)
        = DifReport.delta ((((200 : Nat) : ℚ) - ((100 : Nat) : ℚ)) / ((200 : Nat) : ℚ) * 100)
            (if 100 < 200 then "reduced" else if 200 < 100 then "gained" else ""))
      ∧ getDif none (some 100) = DifReport.err
      ∧ getDif (some 200) none = DifReport.err
      ∧ getDif (some 200) (some 0) = DifReport.err :=
  c6_report_nonzero_sizes 200 100 (by decide) (by decide)

/-! ### Claim C10 -/

/-- C10: for every path handed to `optimise` and every oracle behaviour, the
first three operations of the job are the mirrored-output-directory creation
(every error swallowed by the bare `.catch`), the deletion of the
extension-less mapped output path, and the cache-directory re-provision —
before and independently of any category branch; and when the extension
belongs to no handled category these three operations are the whole trace. -/
theorem c10_pre_branch_effects (p : String) (o : Oracles) :
    (optimiseOps p o).take 3 =
        [FsOp.mkdir (dirname (mapOutputPath p (optimiseExt p))),
         FsOp.unlink (mapOutputPath p (optimiseExt p)), FsOp.mkdir cacheDir]
      ∧ (knownHandledExt (optimiseExt p) = false → optimiseOps p o =
          [FsOp.mkdir (dirname (mapOutputPath p (optimiseExt p))),
           FsOp.unlink (mapOutputPath p (optimiseExt p)), FsOp.mkdir cacheDir]) := by
  constructor
  · rw [optimiseOps, show 3 = (preOps p).length from rfl, List.take_left]
    rfl
  · intro h
    simp only [knownHandledExt, Bool.or_eq_false_iff] at h
    obtain ⟨⟨⟨⟨h1, h2⟩, h3⟩, h4⟩, h5⟩ := h
    rw [optimiseOps]
    have hb : bodyOps p o = [] := by
      simp only [bodyOps]
      rw [if_neg (by rw [h1]; simp), if_neg (by rw [h2]; simp), if_neg (by rw [h3]; simp),
        if_neg (by rw [h4]; simp), if_neg (by rw [h5]; simp)]
    rw [hb]
    rfl

/-- C10 (witness): for the non-category input `/work/public_dev/readme.txt`
the full trace is exactly the three unconditional pre-branch operations. -/
theorem c10_pre_branch_effects_witness :
    optimiseOps "/work/public_dev/readme.txt" ⟨false, false⟩ =
      [FsOp.mkdir "/work/public", FsOp.unlink "/work/public/readme",
       FsOp.mkdir "/work/opt_cache"] := by
  have h := (c10_pre_branch_effects "/work/public_dev/readme.txt" ⟨false, false⟩).2 (by decide)
  rw [h]
  decide
